import Mathlib

set_option maxRecDepth 8000

/-!
Shallow embedding of the EdgeCheck VS Code extension's diagnostic pipeline
(src/vscode-extension/extension.js, second bundled variant): finding
normalization, exact-key deduplication, overlap coalescing, ignore-comment
suppression, diagnostic publishing, quick-fix synthesis and the fix-all
edit loop.  Machine numbers from the JSON payload are modelled as `Int`,
absent fields as `Option`, and JS truthiness (`x || d`) explicitly.
-/

/-- JS truthiness for numeric fields: `v || d` (absent and `0` are falsy). -/
def jsOr (v : Option Int) (d : Int) : Int :=
  match v with
  | none => d
  | some x => if x = 0 then d else x

/-- JS truthiness for string fields: `v || d` (absent and `""` are falsy). -/
def jsOrS (v : Option String) (d : String) : String :=
  match v with
  | none => d
  | some x => if x = "" then d else x

/-- The first list is an initial run of the second (character lists). -/
def hasStart : List Char → List Char → Bool
  | [], _ => true
  | _ :: _, [] => false
  | a :: as, b :: bs => a == b && hasStart as bs

/-- The first list occurs as a contiguous run inside the second. -/
def hasSub (pat : List Char) : List Char → Bool
  | [] => hasStart pat []
  | c :: rest => hasStart pat (c :: rest) || hasSub pat rest

/-- JS `hay.includes(pat)` (substring containment). -/
def strIncludes (hay pat : String) : Bool :=
  hasSub pat.data hay.data

/-- JS `s.startsWith(pat)`. -/
def startsWithStr (s pat : String) : Bool :=
  hasStart pat.data s.data

/-- JS `s.toLowerCase()` (character-wise, adequate for ASCII payloads). -/
def lowerStr (s : String) : String :=
  String.mk (s.data.map Char.toLower)

/-- Whitespace characters recognized when modelling JS `\s` / `trim`. -/
def isWsChar (c : Char) : Bool :=
  c == ' ' || c == '\t' || c == '\n' || c == '\r'

/-- JS `s.trim()`. -/
def trimStr (s : String) : String :=
  String.mk (((s.data.dropWhile isWsChar).reverse.dropWhile isWsChar).reverse)

/-- JS `text.match(/^\s*/)?.[0]`: the leading whitespace of a line. -/
def leadingWs (t : String) : String :=
  String.mk (t.data.takeWhile isWsChar)

/-- JS `Array.prototype.join(sep)`. -/
def joinSep (sep : String) : List String → String
  | [] => ""
  | [x] => x
  | x :: y :: rest => x ++ sep ++ joinSep sep (y :: rest)

/-- JS `Set.prototype.add`: append when absent, keeping insertion order. -/
def setAdd (l : List String) (x : String) : List String :=
  if x ∈ l then l else l ++ [x]

/-- JS `Array.from(new Set(l))`: drop later duplicates, keep first
occurrences in order. -/
def dedupFirstAux : List String → List String → List String
  | [], _ => []
  | x :: xs, seen =>
    if x ∈ seen then dedupFirstAux xs seen else x :: dedupFirstAux xs (x :: seen)

/-- First-occurrence deduplication of a string list. -/
def dedupFirst (l : List String) : List String :=
  dedupFirstAux l []

/-- A raw finding as consumed from the engine JSON.  Absent fields are
`none`; `file` uses `""` for absent since `!f.file` treats both alike. -/
structure Finding where
  file : String
  line : Option Int
  start_col : Option Int
  end_col : Option Int
  code : Option String
  message : Option String
  title : Option String
  severity : Option String
  function : Option String
deriving DecidableEq, Repr

/-- A normalized finding (the object spread built at extension.js:370-376). -/
structure NFinding where
  file : String
  line : Int
  start_col : Int
  end_col : Int
  code : Option String
  message : Option String
  title : Option String
  severity : String
  function : Option String
deriving DecidableEq, Repr

/-- Field clamping from extension.js:370-376: `line: Math.max(1, it.line || 1)`,
`start_col: Math.max(0, it.start_col || 0)`,
`end_col: Math.max((it.start_col || 0) + 1, it.end_col || ((it.start_col || 0) + 1))`,
`severity: String(it.severity || 'warning').toLowerCase()`. -/
def normalizeOne (it : Finding) : NFinding :=
  { file := it.file
    line := max 1 (jsOr it.line 1)
    start_col := max 0 (jsOr it.start_col 0)
    end_col := max (jsOr it.start_col 0 + 1) (jsOr it.end_col (jsOr it.start_col 0 + 1))
    code := it.code
    message := it.message
    title := it.title
    severity := lowerStr (jsOrS it.severity "warning")
    function := it.function }

/-- The dedup key of extension.js:356-362: `[it.line || 1, it.start_col || 0,
it.end_col || (it.start_col || 0) + 1, it.code || 'EC999',
it.message || it.title || ''].join(':')`. -/
def exactKey (it : Finding) : String :=
  toString (jsOr it.line 1) ++ ":" ++ toString (jsOr it.start_col 0) ++ ":" ++
  toString (jsOr it.end_col (jsOr it.start_col 0 + 1)) ++ ":" ++
  jsOrS it.code "EC999" ++ ":" ++ jsOrS it.message (jsOrS it.title "")

/-- The dedup-and-normalize loop of extension.js:364-377: skip an item whose
`exactKey` was already seen, otherwise record the key and push the
normalized finding. -/
def dedupNormalize : List Finding → List String → List NFinding
  | [], _ => []
  | it :: rest, seen =>
    if exactKey it ∈ seen then dedupNormalize rest seen
    else normalizeOne it :: dedupNormalize rest (exactKey it :: seen)

/-- Keep the first finding of each `exactKey` class (pre-normalization view
of the same loop, used to state what dedup keeps). -/
def keepFirstByKey : List Finding → List String → List Finding
  | [], _ => []
  | it :: rest, seen =>
    if exactKey it ∈ seen then keepFirstByKey rest seen
    else it :: keepFirstByKey rest (exactKey it :: seen)

/-- The editor-side severity enum (vscode.DiagnosticSeverity). -/
inductive VsSeverity
  | error
  | warning
  | information
  | hint
deriving DecidableEq, Repr

/-- Severity mapping of extension.js:414-418. -/
def severityToVsSev (s : String) : VsSeverity :=
  if s = "error" then .error
  else if s = "info" then .information
  else if s = "hint" then .hint
  else .warning

/-- The running merge candidate of the coalescing sweep
(`seed`/`curr` at extension.js:392-404 and 434): the seed finding's fields
with `end_col` mutated in place, plus the accumulated `_msgs` list and
`_codes` insertion-ordered set. -/
structure CurrCand where
  base : NFinding
  msgs : List String
  codes : List String
deriving DecidableEq, Repr

/-- `msg(it)` at extension.js:440: `(it.message || it.title || '').trim()`. -/
def msgOf (it : NFinding) : String :=
  trimStr (jsOrS it.message (jsOrS it.title ""))

/-- `seed(it)` at extension.js:434. -/
def seedCurr (it : NFinding) : CurrCand :=
  { base := it, msgs := [msgOf it], codes := [jsOrS it.code "EC999"] }

/-- The merge step at extension.js:396-398: extend `end_col` to the max of
both ends, append the message, add the code. -/
def mergeInto (c : CurrCand) (it : NFinding) : CurrCand :=
  { base := { c.base with end_col := max c.base.end_col it.end_col }
    msgs := c.msgs ++ [msgOf it]
    codes := setAdd c.codes (jsOrS it.code "EC999") }

/-- A record flowing into the annotation-building loop: either a plain
normalized finding (coalescing off) or a closed merge candidate carrying
`_mergedMessage` / `_mergedCode`. -/
structure PubRec where
  base : NFinding
  mergedMessage : Option String
  mergedCode : Option String
deriving DecidableEq, Repr

/-- `fin(o)` at extension.js:435-439: close a candidate, joining the
deduplicated messages with a bullet and the codes with a comma. -/
def finCurr (c : CurrCand) : PubRec :=
  { base := c.base
    mergedMessage := some (joinSep " • " (dedupFirst c.msgs))
    mergedCode := some (joinSep "," c.codes) }

/-- The key of the coalescing groups at extension.js:383:
`` `${it.line}:${it.severity}` ``. -/
def coKey (it : NFinding) : String :=
  toString it.line ++ ":" ++ it.severity

/-- Append a value to its group in an insertion-ordered association list
(JS `Map` with array values, extension.js:381-386). -/
def groupPush {α : Type} (groups : List (String × List α)) (k : String) (it : α) :
    List (String × List α) :=
  match groups with
  | [] => [(k, [it])]
  | (k2, v) :: rest =>
    if k2 = k then (k2, v ++ [it]) :: rest else (k2, v) :: groupPush rest k it

/-- Group normalized findings by `line:severity` in insertion order. -/
def groupByCoKey (items : List NFinding) : List (String × List NFinding) :=
  items.foldl (fun gs it => groupPush gs (coKey it) it) []

/-- Stable insertion of one finding into a list sorted by `start_col`
ascending (placed after equal keys, as a stable JS `Array.sort` does). -/
def insertByStartCol (a : NFinding) : List NFinding → List NFinding
  | [] => [a]
  | b :: bs =>
    if a.start_col < b.start_col then a :: b :: bs else b :: insertByStartCol a bs

/-- `arr.sort((a, b) => a.start_col - b.start_col)` at extension.js:390,
modelled as a stable insertion sort. -/
def sortByStartCol (l : List NFinding) : List NFinding :=
  l.foldl (fun acc it => insertByStartCol it acc) []

/-- The left-to-right sweep of extension.js:391-404: merge the next finding
into `curr` when `it.start_col <= curr.end_col + 1`, otherwise close `curr`
and seed a new candidate; close the last candidate at the end. -/
def coalesceLoop : Option CurrCand → List NFinding → List PubRec
  | none, [] => []
  | some c, [] => [finCurr c]
  | none, it :: rest => coalesceLoop (some (seedCurr it)) rest
  | some c, it :: rest =>
    if it.start_col ≤ c.base.end_col + 1 then
      coalesceLoop (some (mergeInto c it)) rest
    else
      finCurr c :: coalesceLoop (some (seedCurr it)) rest

/-- The whole optional coalescing block of extension.js:379-406: when the
flag is off the normalized findings pass through unchanged, otherwise each
`(line, severity)` group is sorted by `start_col` and swept. -/
def coalesceStage (doCoalesce : Bool) (normalized : List NFinding) : List PubRec :=
  if doCoalesce then
    (groupByCoKey normalized).foldl (fun acc g => acc ++ coalesceLoop none (sortByStartCol g.2)) []
  else
    normalized.map (fun it => { base := it, mergedMessage := none, mergedCode := none })

/-- The two accepted marker spellings of extension.js:261:
`# edgecheck: ignore CODE` and `# edgecheck:ignore CODE`, looked for as
substrings of the line. -/
def markerHit (t : String) (code : String) : Bool :=
  strIncludes t ("# edgecheck: ignore " ++ code) || strIncludes t ("# edgecheck:ignore " ++ code)

/-- The downward scan of extension.js:259-262 from line `i` to line `lo`
inclusive.  `doc.lineAt(i)` throws on an out-of-range index; the
surrounding `try` turns that into an overall `false`. -/
def ignoreScan (doc : List String) (code : String) (lo : Nat) : Nat → Bool
  | 0 =>
    match doc.get? 0 with
    | none => false
    | some t => markerHit t code
  | i + 1 =>
    match doc.get? (i + 1) with
    | none => false
    | some t =>
      if markerHit t code then true
      else if i + 1 ≤ lo then false
      else ignoreScan doc code lo i

/-- `lineHasIgnoreComment(absPath, zeroBasedLine, code)` at
extension.js:255-265: open the document (failure gives `false`), then scan
from `max(0, zeroBasedLine)` down to `max(0, zeroBasedLine - 2)`.  The
document environment maps a path to its lines, `none` meaning the document
cannot be opened. -/
def lineHasIgnoreComment (docs : String → Option (List String)) (absPath : String)
    (line0 : Int) (code : String) : Bool :=
  match docs absPath with
  | none => false
  | some doc => ignoreScan doc code (max 0 (line0 - 2)).toNat (max 0 line0).toNat

/-- An editor diagnostic as built at extension.js:413-423: a one-line range,
a severity, the composed message and the composed code value. -/
structure Diagnostic where
  line : Int
  startChar : Int
  endChar : Int
  severity : VsSeverity
  message : String
  code : String
deriving DecidableEq, Repr

/-- Build one diagnostic from a publish record (extension.js:413-423):
message `it._mergedMessage || it.message || it.title || 'EdgeCheck finding'`,
code value `it._mergedCode || it.code || 'EC999'`. -/
def buildDiag (r : PubRec) : Diagnostic :=
  { line := r.base.line - 1
    startChar := r.base.start_col
    endChar := r.base.end_col
    severity := severityToVsSev r.base.severity
    message := jsOrS r.mergedMessage (jsOrS r.base.message (jsOrS r.base.title "EdgeCheck finding"))
    code := jsOrS r.mergedCode (jsOrS r.base.code "EC999") }

/-- The annotation-building loop of extension.js:408-427: per record, skip
it when `lineHasIgnoreComment(norm, it.line - 1, it.code || 'EC999')`
reports a marker, otherwise emit the diagnostic. -/
def buildStage (docs : String → Option (List String)) (norm : String) :
    List PubRec → List Diagnostic
  | [] => []
  | r :: rest =>
    if lineHasIgnoreComment docs norm (r.base.line - 1) (jsOrS r.base.code "EC999") then
      buildStage docs norm rest
    else
      buildDiag r :: buildStage docs norm rest

/-- The timeout test of extension.js:345: `/timeout/i.test(f.title || '') ||
/timeout/i.test(f.message || '')`. -/
def isTimeoutF (f : Finding) : Bool :=
  strIncludes (lowerStr (jsOrS f.title "")) "timeout" ||
  strIncludes (lowerStr (jsOrS f.message "")) "timeout"

/-- The grouping loop of extension.js:342-349 with its accumulated map:
skip null entries and entries without a truthy `file`, optionally skip
timeout findings, and push the rest into the insertion-ordered per-file
map. -/
def groupByFileAux (hideTimeouts : Bool) :
    List (Option Finding) → List (String × List Finding) → List (String × List Finding)
  | [], gs => gs
  | none :: rest, gs => groupByFileAux hideTimeouts rest gs
  | some f :: rest, gs =>
    if f.file = "" then groupByFileAux hideTimeouts rest gs
    else if hideTimeouts && isTimeoutF f then groupByFileAux hideTimeouts rest gs
    else groupByFileAux hideTimeouts rest (groupPush gs f.file f)

/-- The per-file grouping of extension.js:342-349, started from the empty
map. -/
def groupByFile (hideTimeouts : Bool) (findings : List (Option Finding)) :
    List (String × List Finding) :=
  groupByFileAux hideTimeouts findings []

/-- `path.isAbsolute` for POSIX paths. -/
def isAbsolutePath (p : String) : Bool :=
  hasStart "/".data p.data

/-- `path.isAbsolute(file) ? file : path.join(repoRoot(), file)` followed by
`path.normalize` (extension.js:352-353); dot-segment collapsing is not
modelled since no behavior here depends on it. -/
def resolvePath (root file : String) : String :=
  if isAbsolutePath file then file else root ++ "/" ++ file

/-- The per-file annotation state (the `diag` DiagnosticCollection), an
insertion-ordered map from normalized absolute path to diagnostics. -/
abbrev DiagState := List (String × List Diagnostic)

/-- `diag.get(uri)` on the modelled state. -/
def getEntry (st : DiagState) (k : String) : Option (List Diagnostic) :=
  match st with
  | [] => none
  | (k2, v) :: rest => if k2 = k then some v else getEntry rest k

/-- `diag.set(uri, ds)`: replace the entry for `k` or append a new one. -/
def setEntry (st : DiagState) (k : String) (v : List Diagnostic) : DiagState :=
  match st with
  | [] => [(k, v)]
  | (k2, v2) :: rest =>
    if k2 = k then (k, v) :: rest else (k2, v2) :: setEntry rest k v

/-- The configuration flags read at extension.js:339-340. -/
structure Config where
  hideTimeouts : Bool
  coalesceOverlapping : Bool
deriving DecidableEq, Repr

/-- The per-file body of `publishFindings` (extension.js:351-429): dedup and
normalize the file's items, optionally coalesce, then build annotations
with the inline suppression check. -/
def processFileItems (c : Config) (docs : String → Option (List String))
    (norm : String) (items : List Finding) : List Diagnostic :=
  buildStage docs norm (coalesceStage c.coalesceOverlapping (dedupNormalize items []))

/-- `publishFindings(findings)` (extension.js:335-441) as a transformer of
the per-file annotation state: `diag.clear(); META.clear()` discards the
prior state, then each file group's diagnostics are set on the emptied
collection. -/
def publishFindings (c : Config) (docs : String → Option (List String))
    (root : String) (st : DiagState) (findings : List (Option Finding)) : DiagState :=
  let _cleared := st
  (groupByFile c.hideTimeouts findings).foldl
    (fun acc g =>
      setEntry acc (resolvePath root g.1) (processFileItems c docs (resolvePath root g.1) g.2))
    []

/-- `clearAllDiagnostics` (extension.js:641): empties the state. -/
def clearAllDiagnostics : DiagState → DiagState :=
  fun _ => []

/-- The parsed engine payload (only the findings list matters here). -/
structure CliResult where
  findings : List (Option Finding)
deriving DecidableEq, Repr

/-- What the `close` handler produced: the resolved result and whether the
parse-error branch logged. -/
structure CloseOutcome where
  result : CliResult
  loggedError : Bool
deriving DecidableEq, Repr

/-- The `close` handler of `runCliForFile` (extension.js:302-309):
`JSON.parse` is abstracted as an already-attempted parse (`none` = the
parse threw); on failure the handler logs a diagnostic line and resolves
`{ version: '0.1.0', findings: [] }`. -/
def runCliOnClose (parsed : Option CliResult) : CloseOutcome :=
  match parsed with
  | some r => { result := r, loggedError := false }
  | none => { result := { findings := [] }, loggedError := true }

/-- A pure text insertion: position (line, column) plus inserted text. -/
structure TextEdit where
  line : Int
  col : Int
  text : String
deriving DecidableEq, Repr

/-- `doc.lineAt(i)`: `none` models the exception on an out-of-range or
negative index. -/
def lineAt (doc : List String) (i : Int) : Option String :=
  if i < 0 then none else doc.get? i.toNat

/-- A quick fix of the first extension variant: a title plus the `apply`
callback, which reads the document to compute the insertion (a `none`
result models `doc.lineAt` throwing). -/
structure QFix where
  title : String
  applyFix : List String → Option TextEdit

/-- The zero-guard fix of extension.js:76-87: insert at the line after the
finding's line, indentation copied from that line. -/
def zeroGuardQF (f : Finding) : QFix :=
  { title := "Insert zero-guard in " ++ jsOrS f.function "" ++ "()"
    applyFix := fun doc =>
      (lineAt doc (max 0 (jsOr f.line 1 - 1) + 1)).map fun text =>
        { line := max 0 (jsOr f.line 1 - 1) + 1
          col := 0
          text := leadingWs text ++ "if b == 0:\n" ++
            leadingWs text ++ "    raise ValueError(\"denominator cannot be zero\")\n" } }

/-- The length-guard fix of extension.js:91-102. -/
def lenGuardQF (f : Finding) : QFix :=
  { title := "Insert length-guard in " ++ jsOrS f.function "" ++ "()"
    applyFix := fun doc =>
      (lineAt doc (max 0 (jsOr f.line 1 - 1) + 1)).map fun text =>
        { line := max 0 (jsOr f.line 1 - 1) + 1
          col := 0
          text := leadingWs text ++ "if not b or len(b) <= 100:\n" ++
            leadingWs text ++ "    raise ValueError(\"buffer too small for index 100\")\n" } }

/-- `quickFixesForFinding(f)` of the first extension variant
(extension.js:70-105): no fixes for `info` severity; a zero guard for code
exactly `EC001` or a `ZeroDivisionError` message when a function name is
known; a length guard for code exactly `EC002` or an `IndexError` message
when a function name is known. -/
def quickFixesForFinding (f : Finding) : List QFix :=
  if lowerStr (jsOrS f.severity "") = "info" then []
  else
    (if (f.code = some "EC001" ∨ startsWithStr (jsOrS f.message "") "ZeroDivisionError" = true) ∧
        jsOrS f.function "" ≠ "" then [zeroGuardQF f] else []) ++
    (if (f.code = some "EC002" ∨ startsWithStr (jsOrS f.message "") "IndexError" = true) ∧
        jsOrS f.function "" ≠ "" then [lenGuardQF f] else [])

/-- The `quickFix`-relevant configuration of the second variant. -/
structure QFCfg where
  zeroGuardMessage : Option String
deriving DecidableEq, Repr

/-- A code action of the second variant: title plus workspace edits. -/
structure CodeAct where
  title : String
  edits : List TextEdit
deriving DecidableEq, Repr

/-- The zero-guard text of extension.js:580-581 and 476-477. -/
def ec001GuardText (indent zeroMsg : String) : String :=
  indent ++ "if b == 0:\n" ++ indent ++ "    raise ValueError(\"" ++ zeroMsg ++ "\")\n"

/-- The bounds/type-guard text of extension.js:487-493 and 586-592
(`join('\n')` over four lines and a trailing empty string). -/
def ec002GuardText (indent : String) : String :=
  indent ++ "if not isinstance(b, (bytes, bytearray)):\n" ++
  indent ++ "    raise TypeError(\"b must be bytes-like\")\n" ++
  indent ++ "if len(b) <= 100:\n" ++
  indent ++ "    raise ValueError(\"buffer too small for index 100\")\n"

/-- The per-candidate body of `EdgeCheckQuickFixProvider.provideCodeActions`
(extension.js:461-505): all inserts are placed at `(atLine, 0)` where
`atLine = d.range.start.line` is the finding's own line; `indent` is copied
from that line (`currentIndent` throwing models as `none`).  The standing
`metaFunction` is the `META` record's `function` field. -/
def provideActionsForDiag (c : QFCfg) (doc : List String) (metaFunction : Option String)
    (d : Diagnostic) : Option (List CodeAct) :=
  (lineAt doc d.line).map fun text =>
    let indent := leadingWs text
    let func := jsOrS metaFunction "(function)"
    (if strIncludes d.code "EC001" = true then
      [{ title := "EdgeCheck: add zero-denominator guard in " ++ func
         edits := [{ line := d.line, col := 0
                     text := ec001GuardText indent (jsOrS c.zeroGuardMessage "denominator cannot be zero") }] }]
     else []) ++
    (if strIncludes d.code "EC002" = true then
      [{ title := "EdgeCheck: add bounds/type guard in " ++ func
         edits := [{ line := d.line, col := 0, text := ec002GuardText indent }] }]
     else []) ++
    (if d.code ≠ "" then
      [{ title := "EdgeCheck: suppress " ++ d.code ++ " in " ++ func
         edits := [{ line := d.line, col := 0
                     text := indent ++ "# edgecheck: ignore " ++ d.code ++ "\n" }] }]
     else [])

/-- The key of `insertedAt` at extension.js:575:
`` `${line}:${d.range.start.character}` `` — the diagnostic's start line and
start character, not the insertion point (which is always column 0). -/
def fixKey (d : Diagnostic) : String :=
  toString d.line ++ ":" ++ toString d.startChar

/-- Stable insertion of one diagnostic into a list sorted by start line. -/
def insertByLine (a : Diagnostic) : List Diagnostic → List Diagnostic
  | [] => [a]
  | b :: bs => if a.line < b.line then a :: b :: bs else b :: insertByLine a bs

/-- `ds.slice().sort((a, b) => a.range.start.line - b.range.start.line)`
at extension.js:561, as a stable insertion sort. -/
def sortDiagsByLine (l : List Diagnostic) : List Diagnostic :=
  l.foldl (fun acc d => insertByLine d acc) []

/-- The edit-collection loop of `fixAllInCurrentFile` (extension.js:571-596):
per diagnostic, compute the indent of its start line (`currentIndent`
throwing aborts, modelled by `none`), then for an `EC001`-containing code
insert the zero guard at `(line, 0)` unless the `(line, startChar)` key was
already used, else for `EC002` the bounds guard likewise; other codes add
nothing. -/
def fixAllLoop (doc : List String) (zeroMsg : String) :
    List Diagnostic → List TextEdit → List String → Option (List TextEdit × List String)
  | [], edits, seen => some (edits, seen)
  | d :: rest, edits, seen =>
    match lineAt doc d.line with
    | none => none
    | some text =>
      let indent := leadingWs text
      if strIncludes d.code "EC001" = true then
        if fixKey d ∈ seen then fixAllLoop doc zeroMsg rest edits seen
        else
          fixAllLoop doc zeroMsg rest
            (edits ++ [{ line := d.line, col := 0, text := ec001GuardText indent zeroMsg }])
            (seen ++ [fixKey d])
      else if strIncludes d.code "EC002" = true then
        if fixKey d ∈ seen then fixAllLoop doc zeroMsg rest edits seen
        else
          fixAllLoop doc zeroMsg rest
            (edits ++ [{ line := d.line, col := 0, text := ec002GuardText indent }])
            (seen ++ [fixKey d])
      else fixAllLoop doc zeroMsg rest edits seen

/-- The edits accumulated by `fixAllInCurrentFile` for a sorted batch of
diagnostics. -/
def fixAllGuardEdits (doc : List String) (zeroMsg : String) (ds : List Diagnostic) :
    Option (List TextEdit) :=
  (fixAllLoop doc zeroMsg (sortDiagsByLine ds) [] []).map (fun p => p.1)

/-- Modelled from the spec (§4.2/§4.4 stage order): the Ignore-Suppression
Filter applied to normalized findings BEFORE coalescing, dropping each
finding whose own line window carries a marker for its code. -/
def suppressStage (docs : String → Option (List String)) (norm : String)
    (items : List NFinding) : List NFinding :=
  items.filter
    (fun it => ! lineHasIgnoreComment docs norm (it.line - 1) (jsOrS it.code "EC999"))

/-- Annotation building without any suppression check (the build step of the
spec's pipeline, where suppression already happened). -/
def buildNoSuppress (recs : List PubRec) : List Diagnostic :=
  recs.map buildDiag

/-- Modelled from the spec (§4.4): the per-file pipeline in the spec's
order — normalize/dedup, then suppress, then (optionally) coalesce, then
build.  Compared against `processFileItems`, the order the code uses. -/
def processFileItemsSpecOrder (c : Config) (docs : String → Option (List String))
    (norm : String) (items : List Finding) : List Diagnostic :=
  buildNoSuppress
    (coalesceStage c.coalesceOverlapping (suppressStage docs norm (dedupNormalize items [])))

/-- A document environment in which no document can be opened. -/
def noDocs : String → Option (List String) :=
  fun _ => none

/-- Coalescing enabled, timeouts shown. -/
def cfgCoalesce : Config :=
  { hideTimeouts := false, coalesceOverlapping := true }

/-- Coalescing disabled, timeouts shown. -/
def cfgPlain : Config :=
  { hideTimeouts := false, coalesceOverlapping := false }

/-- Finding on line 5 of /a.py, severity warning, span [0,4), code EC001. -/
def fMerge1 : Finding :=
  ⟨"/a.py", some 5, some 0, some 4, some "EC001", some "m1", none, some "warning", none⟩

/-- Finding on line 5 of /a.py, severity warning, span [4,10), code EC002. -/
def fMerge2 : Finding :=
  ⟨"/a.py", some 5, some 4, some 10, some "EC002", some "m2", none, some "warning", none⟩

/-- Finding on line 5 of /a.py, severity warning, span [10,15), code EC002. -/
def fGap2 : Finding :=
  ⟨"/a.py", some 5, some 10, some 15, some "EC002", some "m2", none, some "warning", none⟩

/-- A raw finding with negative columns: `start_col = -3`, `end_col = -5`. -/
def fNegCols : Finding :=
  ⟨"a.py", some 1, some (-3), some (-5), none, none, none, none, none⟩

/-- A raw finding with `start_col = 2`, `end_col = 2` (empty span). -/
def fFlatSpan : Finding :=
  ⟨"a.py", some 1, some 2, some 2, some "EC001", some "m", none, some "warning", none⟩

/-- Finding with empty message and title "A" (same dedup tuple as `fTitleB`). -/
def fTitleA : Finding :=
  ⟨"a.py", some 1, some 0, some 5, some "EC001", some "", some "A", some "warning", none⟩

/-- Finding with empty message and title "B" (same dedup tuple as `fTitleA`). -/
def fTitleB : Finding :=
  ⟨"a.py", some 1, some 0, some 5, some "EC001", some "", some "B", some "warning", none⟩

/-- A one-line document whose only line is a marker naming code EC001. -/
def docMarker1 : List String :=
  ["# edgecheck: ignore EC001"]

/-- Documents whose line 5 (index 4) carries a marker naming code EC002. -/
def docsMarkerB : String → Option (List String) :=
  fun _ => some ["", "", "", "", "# edgecheck: ignore EC002"]

/-- An eight-line document whose line at index 7 is indented Python code. -/
def doc7 : List String :=
  ["", "", "", "", "", "", "", "    y = a / b"]

/-- EC001 diagnostic at line 7, columns 0-3. -/
def d7a : Diagnostic :=
  ⟨7, 0, 3, .warning, "m1", "EC001"⟩

/-- EC001 diagnostic at line 7, columns 5-9 (same line, different start). -/
def d7b : Diagnostic :=
  ⟨7, 5, 9, .warning, "m2", "EC001"⟩

/-- EC001 diagnostic at line 7, columns 0-3 with another message (same
`(line, startChar)` key as `d7a`). -/
def d7aDup : Diagnostic :=
  ⟨7, 0, 3, .warning, "m2", "EC001"⟩

/-- A six-line document whose line at index 5 is indented Python code. -/
def doc8 : List String :=
  ["", "", "", "", "", "    return a / b"]

/-- EC001 diagnostic at line 5, columns 0-5. -/
def d8 : Diagnostic :=
  ⟨5, 0, 5, .warning, "m", "EC001"⟩

/-- A division-by-zero finding at line 3 in function `divide`. -/
def f8 : Finding :=
  ⟨"/a.py", some 3, some 0, some 5, some "EC001",
   some "ZeroDivisionError: division by zero", none, some "warning", some "divide"⟩

/-- A previously published diagnostic for /a.py. -/
def dOld : Diagnostic :=
  ⟨0, 0, 1, .warning, "old", "EC001"⟩

/-- A prior annotation state holding one entry, for /a.py. -/
def stPrior : DiagState :=
  [("/a.py", [dOld])]

/-- A well-formed finding for a different file, /b.py. -/
def fOtherB : Finding :=
  ⟨"/b.py", some 1, some 0, some 2, some "EC001", some "m", none, some "warning", none⟩

/-- Entries of a findings list that `publishFindings` does not skip:
non-null with a truthy `file`. -/
def cleanFindingsList : List (Option Finding) → List (Option Finding)
  | [] => []
  | none :: rest => cleanFindingsList rest
  | some f :: rest =>
    if f.file = "" then cleanFindingsList rest else some f :: cleanFindingsList rest

/-- Unfolding `jsOr` at an absent field. -/
theorem jsOr_none (d : Int) : jsOr none d = d := rfl

/-- Unfolding `jsOr` at a present field. -/
theorem jsOr_some (x d : Int) : jsOr (some x) d = if x = 0 then d else x := rfl

/-- The dedup loop keeps exactly the first finding of each key class,
normalized. -/
theorem dedupNormalize_eq_keepFirst (items : List Finding) :
    ∀ seen : List String,
      dedupNormalize items seen = (keepFirstByKey items seen).map normalizeOne := by
  induction items with
  | nil => intro seen; rfl
  | cons it rest ih =>
    intro seen
    by_cases h : exactKey it ∈ seen <;>
      simp [dedupNormalize, keepFirstByKey, h, ih]

/-- Every survivor of the dedup loop has a key outside the incoming seen
set. -/
theorem keepFirstByKey_not_mem (items : List Finding) :
    ∀ (seen : List String) (x : Finding),
      x ∈ keepFirstByKey items seen → exactKey x ∉ seen := by
  induction items with
  | nil => intro seen x hx; simp [keepFirstByKey] at hx
  | cons it rest ih =>
    intro seen x hx
    by_cases h : exactKey it ∈ seen
    · rw [keepFirstByKey, if_pos h] at hx
      exact ih seen x hx
    · rw [keepFirstByKey, if_neg h] at hx
      rcases List.mem_cons.mp hx with rfl | hx2
      · exact h
      · have h2 := ih _ x hx2
        intro hmem
        exact h2 (List.mem_cons_of_mem _ hmem)

/-- Dedup survivors have pairwise distinct keys. -/
theorem keepFirstByKey_pairwise (items : List Finding) :
    ∀ seen : List String,
      (keepFirstByKey items seen).Pairwise (fun a b => exactKey a ≠ exactKey b) := by
  induction items with
  | nil => intro seen; simp [keepFirstByKey]
  | cons it rest ih =>
    intro seen
    by_cases h : exactKey it ∈ seen
    · rw [keepFirstByKey, if_pos h]; exact ih seen
    · rw [keepFirstByKey, if_neg h]
      refine List.pairwise_cons.mpr ⟨?_, ih _⟩
      intro b hb heq
      have h2 := keepFirstByKey_not_mem rest _ b hb
      exact h2 (heq ▸ List.mem_cons_self _ _)

/-- Reading a state after a set: the set key answers the new value, any
other key answers as before. -/
theorem getEntry_setEntry (st : DiagState) (k : String) (v : List Diagnostic) (p : String) :
    getEntry (setEntry st k v) p = if k = p then some v else getEntry st p := by
  induction st with
  | nil =>
    by_cases hp : k = p <;> simp [setEntry, getEntry, hp]
  | cons kv rest ih =>
    obtain ⟨k2, v2⟩ := kv
    by_cases hk : k2 = k
    · subst hk
      by_cases hp : k2 = p <;> simp [setEntry, getEntry, hp]
    · by_cases hp : k2 = p
      · subst hp
        have hkp : ¬ k = k2 := fun h => hk h.symm
        simp [setEntry, getEntry, hk, hkp]
      · simp [setEntry, getEntry, hk, hp, ih]

/-- Folding per-file sets over a cleared state never creates an entry for a
path outside the folded groups. -/
theorem getEntry_publish_fold (c : Config) (docs : String → Option (List String))
    (root : String) (p : String) :
    ∀ (gs : List (String × List Finding)) (acc : DiagState),
      (∀ g ∈ gs, resolvePath root g.1 ≠ p) → getEntry acc p = none →
      getEntry
        (gs.foldl
          (fun a g =>
            setEntry a (resolvePath root g.1) (processFileItems c docs (resolvePath root g.1) g.2))
          acc) p = none := by
  intro gs
  induction gs with
  | nil => intro acc _ hacc; exact hacc
  | cons g rest ih =>
    intro acc hall hacc
    rw [List.foldl_cons]
    refine ih _ (fun g2 hg2 => hall g2 (List.mem_cons_of_mem _ hg2)) ?_
    rw [getEntry_setEntry, if_neg (hall g (List.mem_cons_self _ _))]
    exact hacc

/-- The annotation-building loop is suppression filtering followed by plain
diagnostic construction. -/
theorem buildStage_eq_filter (docs : String → Option (List String)) (norm : String)
    (recs : List PubRec) :
    buildStage docs norm recs =
      (recs.filter
        (fun r => ! lineHasIgnoreComment docs norm (r.base.line - 1) (jsOrS r.base.code "EC999"))).map
        buildDiag := by
  induction recs with
  | nil => rfl
  | cons r rest ih =>
    cases h : lineHasIgnoreComment docs norm (r.base.line - 1) (jsOrS r.base.code "EC999") <;>
      simp [buildStage, List.filter, h, ih]

/-- Null entries and entries without a truthy `file` never affect the
per-file grouping. -/
theorem groupByFileAux_skips (hide : Bool) :
    ∀ (fs : List (Option Finding)) (gs : List (String × List Finding)),
      groupByFileAux hide fs gs = groupByFileAux hide (cleanFindingsList fs) gs := by
  intro fs
  induction fs with
  | nil => intro gs; rfl
  | cons of rest ih =>
    intro gs
    cases of with
    | none => rw [groupByFileAux, cleanFindingsList]; exact ih gs
    | some f =>
      by_cases hf : f.file = ""
      · rw [groupByFileAux, if_pos hf, cleanFindingsList, if_pos hf]
        exact ih gs
      · rw [groupByFileAux, if_neg hf, cleanFindingsList, if_neg hf, groupByFileAux, if_neg hf]
        by_cases ht : (hide && isTimeoutF f) = true
        · rw [if_pos ht, if_pos ht]; exact ih gs
        · rw [if_neg ht, if_neg ht]; exact ih _

/-- The downward marker scan succeeds exactly when the top index is inside
the document and some line of the scanned window carries a marker. -/
theorem ignoreScan_true_iff (doc : List String) (code : String) (lo : Nat) :
    ∀ hi : Nat, lo ≤ hi →
      (ignoreScan doc code lo hi = true ↔
        (hi < doc.length ∧ ∃ i : Nat, lo ≤ i ∧ i ≤ hi ∧
          ∃ t : String, doc.get? i = some t ∧ markerHit t code = true)) := by
  intro hi
  induction hi with
  | zero =>
    intro hlo
    have hlo0 : lo = 0 := Nat.le_zero.mp hlo
    subst hlo0
    rw [ignoreScan]
    cases hget : doc.get? 0 with
    | none =>
      have hlen : doc.length ≤ 0 := List.get?_eq_none.mp hget
      simp only [Bool.false_eq_true, false_iff]
      rintro ⟨hlt, -⟩
      omega
    | some t =>
      have hlt : 0 < doc.length := by
        by_contra hcon
        rw [List.get?_eq_none.mpr (by omega)] at hget
        cases hget
      dsimp only
      constructor
      · intro hm
        exact ⟨hlt, 0, Nat.le_refl 0, Nat.le_refl 0, t, hget, hm⟩
      · rintro ⟨-, i, -, h2, t2, hget2, hm2⟩
        have hi0 : i = 0 := Nat.le_zero.mp h2
        subst hi0
        rw [hget] at hget2
        cases hget2
        exact hm2
  | succ n ih =>
    intro hlo
    rw [ignoreScan]
    cases hget : doc.get? (n + 1) with
    | none =>
      have hlen : doc.length ≤ n + 1 := List.get?_eq_none.mp hget
      simp only [Bool.false_eq_true, false_iff]
      rintro ⟨hlt, -⟩
      omega
    | some t =>
      have hlt : n + 1 < doc.length := by
        by_contra hcon
        rw [List.get?_eq_none.mpr (by omega)] at hget
        cases hget
      dsimp only
      by_cases hm : markerHit t code = true
      · rw [if_pos hm]
        simp only [true_iff]
        exact ⟨hlt, n + 1, hlo, Nat.le_refl _, t, hget, hm⟩
      · rw [if_neg hm]
        by_cases hle : n + 1 ≤ lo
        · rw [if_pos hle]
          simp only [Bool.false_eq_true, false_iff]
          rintro ⟨-, i, h1, h2, t2, hget2, hm2⟩
          have hini : i = n + 1 := by omega
          subst hini
          rw [hget] at hget2
          cases hget2
          exact hm hm2
        · rw [if_neg hle]
          rw [ih (by omega)]
          constructor
          · rintro ⟨-, i, h1, h2, t2, hget2, hm2⟩
            exact ⟨hlt, i, h1, by omega, t2, hget2, hm2⟩
          · rintro ⟨-, i, h1, h2, t2, hget2, hm2⟩
            refine ⟨by omega, i, h1, ?_, t2, hget2, hm2⟩
            rcases Nat.lt_or_ge i (n + 1) with hcase | hcase
            · omega
            · have hini : i = n + 1 := by omega
              subst hini
              rw [hget] at hget2
              cases hget2
              exact absurd hm2 hm

/-- C4, counterexample: the claim universally asserts that any finding with
`end_col <= start_col` normalizes to `end_col == start_col + 1`; for the raw
finding with `start_col = -3`, `end_col = -5` (so `end_col <= start_col`),
normalization yields `start_col = 0` but `end_col = -2`, which is neither
`start_col + 1` nor above `start_col`. -/
theorem c4_counterexample :
    fNegCols.start_col = some (-3) ∧ fNegCols.end_col = some (-5) ∧ ((-5 : Int) ≤ -3) ∧
    (normalizeOne fNegCols).end_col ≠ (normalizeOne fNegCols).start_col + 1 ∧
    ¬ (normalizeOne fNegCols).start_col < (normalizeOne fNegCols).end_col := by
  decide

/-- C4 (amended): the normalizer produces `line = max(1, line||1)`,
`start_col = max(0, start_col||0)`,
`end_col = max(start_col+1, end_col||start_col+1)` and the severity
lower-cased with fallback "warning"; and whenever the raw `start_col` is
nonnegative (or absent) and the raw `end_col` is at most that value, the
normalized finding satisfies `end_col == start_col + 1`, so `end_col`
strictly exceeds `start_col`. -/
theorem c4_normalizer_clamping (f : Finding)
    (hs : 0 ≤ jsOr f.start_col 0)
    (he : ∀ e : Int, f.end_col = some e → e ≤ jsOr f.start_col 0) :
    (normalizeOne f).line = max 1 (jsOr f.line 1) ∧
    (normalizeOne f).start_col = max 0 (jsOr f.start_col 0) ∧
    (normalizeOne f).end_col =
      max (jsOr f.start_col 0 + 1) (jsOr f.end_col (jsOr f.start_col 0 + 1)) ∧
    (normalizeOne f).severity = lowerStr (jsOrS f.severity "warning") ∧
    (normalizeOne f).end_col = (normalizeOne f).start_col + 1 ∧
    (normalizeOne f).start_col < (normalizeOne f).end_col := by
  have h5 : (normalizeOne f).end_col = (normalizeOne f).start_col + 1 := by
    have hstart : max 0 (jsOr f.start_col 0) = jsOr f.start_col 0 := max_eq_right hs
    simp only [normalizeOne, hstart]
    cases hec : f.end_col with
    | none => rw [jsOr_none, max_self]
    | some e =>
      have hes := he e hec
      rw [jsOr_some]
      by_cases he0 : e = 0
      · rw [if_pos he0, max_self]
      · rw [if_neg he0, max_eq_left (by omega : e ≤ jsOr f.start_col 0 + 1)]
  exact ⟨rfl, rfl, rfl, rfl, h5, by omega⟩

/-- C4 witness: a concrete finding with `start_col = 2 = end_col` normalizes
to `end_col = 3 = start_col + 1`. -/
theorem c4_witness :
    (0 ≤ jsOr fFlatSpan.start_col 0) ∧
    (normalizeOne fFlatSpan).end_col = (normalizeOne fFlatSpan).start_col + 1 :=
  ⟨by decide,
   (c4_normalizer_clamping fFlatSpan (by decide)
      (fun e h => by
        rw [show fFlatSpan.end_col = some 2 from rfl] at h
        cases h
        decide)).2.2.2.2.1⟩

/-- C5, counterexample: `fTitleA` and `fTitleB` agree exactly on the tuple
(line, start_col, end_col, code, message) — both messages are empty — yet
both survive dedup, because the key falls back to the differing titles;
this refutes "at most one survives". -/
theorem c5_counterexample :
    (fTitleA.line = fTitleB.line ∧ fTitleA.start_col = fTitleB.start_col ∧
     fTitleA.end_col = fTitleB.end_col ∧ fTitleA.code = fTitleB.code ∧
     fTitleA.message = fTitleB.message) ∧
    (dedupNormalize [fTitleA, fTitleB] []).length = 2 := by
  decide

/-- C5 (amended): within one publish cycle findings are deduplicated by the
defaulted key `(line||1, start_col||0, end_col||start_col+1, code||'EC999',
message||title||'')`: the survivors before coalescing are exactly the first
finding of each key class, normalized, and their keys are pairwise
distinct. -/
theorem c5_dedup_by_exact_key (items : List Finding) (seen : List String) :
    dedupNormalize items seen = (keepFirstByKey items seen).map normalizeOne ∧
    (keepFirstByKey items seen).Pairwise (fun a b => exactKey a ≠ exactKey b) :=
  ⟨dedupNormalize_eq_keepFirst items seen, keepFirstByKey_pairwise items seen⟩

/-- C1: with coalescing enabled, a finding merges into the current candidate
exactly when `start_col <= curr.end_col + 1`, extending `curr.end_col` to
the max of both ends (otherwise the candidate is closed and reseeded); in
particular spans [0,4) and [4,10) on line 5 with severity "warning" publish
as one annotation spanning [0,10), while spans [0,3) and [10,15) publish as
two separate annotations. -/
theorem c1_coalesce_merge_rule :
    (∀ (c : CurrCand) (it : NFinding) (rest : List NFinding),
        it.start_col ≤ c.base.end_col + 1 →
          coalesceLoop (some c) (it :: rest) = coalesceLoop (some (mergeInto c it)) rest ∧
          (mergeInto c it).base.end_col = max c.base.end_col it.end_col) ∧
    (∀ (c : CurrCand) (it : NFinding) (rest : List NFinding),
        ¬ it.start_col ≤ c.base.end_col + 1 →
          coalesceLoop (some c) (it :: rest) = finCurr c :: coalesceLoop (some (seedCurr it)) rest) ∧
    publishFindings cfgCoalesce noDocs "/r" [] [some fMerge1, some fMerge2] =
      [("/a.py",
        [{ line := 4, startChar := 0, endChar := 10, severity := .warning,
           message := "m1 • m2", code := "EC001,EC002" }])] ∧
    publishFindings cfgCoalesce noDocs "/r" [] [some fMerge1, some fGap2] =
      [("/a.py",
        [{ line := 4, startChar := 0, endChar := 4, severity := .warning,
           message := "m1", code := "EC001" },
         { line := 4, startChar := 10, endChar := 15, severity := .warning,
           message := "m2", code := "EC002" }])] := by
  refine ⟨?_, ?_, by decide, by decide⟩
  · intro c it rest h
    exact ⟨by rw [coalesceLoop, if_pos h], rfl⟩
  · intro c it rest h
    rw [coalesceLoop, if_neg h]

/-- C1 witness: the two touching warnings of the merge example drive the
merge branch at concrete inputs. -/
theorem c1_witness :
    ((normalizeOne fMerge2).start_col ≤ (seedCurr (normalizeOne fMerge1)).base.end_col + 1) ∧
    (coalesceLoop (some (seedCurr (normalizeOne fMerge1))) [normalizeOne fMerge2] =
       coalesceLoop (some (mergeInto (seedCurr (normalizeOne fMerge1)) (normalizeOne fMerge2))) [] ∧
     (mergeInto (seedCurr (normalizeOne fMerge1)) (normalizeOne fMerge2)).base.end_col =
       max (seedCurr (normalizeOne fMerge1)).base.end_col (normalizeOne fMerge2).end_col) :=
  ⟨by decide,
   c1_coalesce_merge_rule.1 (seedCurr (normalizeOne fMerge1)) (normalizeOne fMerge2) [] (by decide)⟩

/-- C2, counterexample: with a prior entry for /a.py, publishing a finding
set that mentions only /b.py removes the /a.py entry — entries for files
absent from the new finding set do NOT remain unchanged. -/
theorem c2_counterexample :
    getEntry stPrior "/a.py" = some [dOld] ∧
    getEntry (publishFindings cfgPlain noDocs "/r" stPrior [some fOtherB]) "/a.py" = none := by
  decide

/-- C2 (amended): `publishFindings` begins with `diag.clear()`, so its
result is independent of the prior state and holds entries only for the
files of the new finding set; files outside the set end with no entry (not
their old one), and `clearAllDiagnostics` empties the state. -/
theorem c2_publish_clears_state (c : Config) (docs : String → Option (List String))
    (root : String) (st st2 : DiagState) (fs : List (Option Finding)) (p : String)
    (hp : ∀ g ∈ groupByFile c.hideTimeouts fs, resolvePath root g.1 ≠ p) :
    publishFindings c docs root st fs = publishFindings c docs root st2 fs ∧
    getEntry (publishFindings c docs root st fs) p = none ∧
    clearAllDiagnostics st = [] := by
  refine ⟨rfl, ?_, rfl⟩
  exact getEntry_publish_fold c docs root p (groupByFile c.hideTimeouts fs) [] hp rfl

/-- C2 witness: the amended statement at the concrete prior state and the
/b.py-only finding set, for the absent file /a.py. -/
theorem c2_witness :
    (∀ g ∈ groupByFile cfgPlain.hideTimeouts [some fOtherB], resolvePath "/r" g.1 ≠ "/a.py") ∧
    getEntry (publishFindings cfgPlain noDocs "/r" stPrior [some fOtherB]) "/a.py" = none :=
  ⟨by decide,
   (c2_publish_clears_state cfgPlain noDocs "/r" stPrior stPrior [some fOtherB] "/a.py"
      (by decide)).2.1⟩

/-- C3, counterexample: on line 5 of /a.py the spans [0,4) (EC001) and
[4,10) (EC002) touch, and the document carries `# edgecheck: ignore EC002`
in the look-back window.  The code coalesces first (merged span [0,10),
suppression then checks the seed code EC001 and keeps it); the spec's
suppress-before-coalesce order instead drops the EC002 finding and yields
span [0,4) — the two pipelines disagree. -/
theorem c3_counterexample :
    processFileItems cfgCoalesce docsMarkerB "/a.py" [fMerge1, fMerge2] ≠
      processFileItemsSpecOrder cfgCoalesce docsMarkerB "/a.py" [fMerge1, fMerge2] := by
  decide

/-- C3 (amended): per publish, each file group is dedup-normalized, then
(optionally) coalesced, and the ignore-suppression filter runs AFTER
coalescing, interleaved with annotation building (using each record's seed
code); the file's state entry is then replaced. -/
theorem c3_stage_order (c : Config) (docs : String → Option (List String)) (root : String)
    (st : DiagState) (fs : List (Option Finding)) :
    publishFindings c docs root st fs =
      (groupByFile c.hideTimeouts fs).foldl
        (fun acc g =>
          setEntry acc (resolvePath root g.1)
            (buildNoSuppress
              ((coalesceStage c.coalesceOverlapping (dedupNormalize g.2 [])).filter
                (fun r =>
                  ! lineHasIgnoreComment docs (resolvePath root g.1) (r.base.line - 1)
                      (jsOrS r.base.code "EC999")))))
        [] := by
  unfold publishFindings
  congr 1
  funext acc g
  rw [processFileItems, buildStage_eq_filter, buildNoSuppress]

/-- C9, counterexample: after a parse failure the run resolves an empty
finding set and logs, but publishing that empty set erases the prior
annotation state instead of leaving it untouched. -/
theorem c9_counterexample :
    (runCliOnClose none).result.findings = [] ∧
    (runCliOnClose none).loggedError = true ∧
    getEntry (publishFindings cfgPlain noDocs "/r" stPrior (runCliOnClose none).result.findings)
        "/a.py" ≠ getEntry stPrior "/a.py" := by
  decide

/-- C9 (amended): non-JSON engine output is surfaced as an empty finding
set plus a diagnostic log entry, and publishing that empty set clears the
whole annotation state (it does not preserve the previously published
entries). -/
theorem c9_parse_failure_semantics (c : Config) (docs : String → Option (List String))
    (root : String) (st : DiagState) :
    (runCliOnClose none).result.findings = [] ∧
    (runCliOnClose none).loggedError = true ∧
    publishFindings c docs root st (runCliOnClose none).result.findings = [] :=
  ⟨rfl, rfl, rfl⟩

/-- C10: null entries and entries without a non-empty `file` are silently
skipped by publish — the result equals publishing the cleaned list, so such
entries contribute no annotation while the well-formed findings still
publish. -/
theorem c10_skips_malformed_entries (c : Config) (docs : String → Option (List String))
    (root : String) (st : DiagState) (fs : List (Option Finding)) :
    publishFindings c docs root st fs = publishFindings c docs root st (cleanFindingsList fs) := by
  unfold publishFindings
  rw [groupByFile, groupByFile, groupByFileAux_skips]

/-- C6, counterexample: the document's only line is a marker naming EC001,
yet a finding with the different code EC00 is suppressed, because the
marker test is substring containment, not an exact code match. -/
theorem c6_counterexample :
    lineHasIgnoreComment (fun _ => some docMarker1) "/a.py" 0 "EC00" = true ∧
    ¬ ("EC001" = "EC00") ∧
    strIncludes "# edgecheck: ignore EC001" "# edgecheck: ignore EC00" = true := by
  decide

/-- C6 (amended): a finding is dropped exactly when the document opens, the
line at index `line-1` (clamped at 0) is inside the document, and that line
or one of the up-to-2 lines above it contains `# edgecheck: ignore CODE` or
`# edgecheck:ignore CODE` as a substring with CODE the finding's code (so a
marker naming an extension of the code also suppresses, and a marker window
above a line beyond the document is never reached); an unopenable document
means not suppressed, and the build loop keeps exactly the unsuppressed
records. -/
theorem c6_suppression_semantics (docs : String → Option (List String)) (p : String)
    (line0 : Int) (code : String) :
    (docs p = none → lineHasIgnoreComment docs p line0 code = false) ∧
    (∀ doc : List String, docs p = some doc →
      (lineHasIgnoreComment docs p line0 code = true ↔
        ((max 0 line0).toNat < doc.length ∧
         ∃ i : Nat, (max 0 (line0 - 2)).toNat ≤ i ∧ i ≤ (max 0 line0).toNat ∧
           ∃ t : String, doc.get? i = some t ∧ markerHit t code = true))) ∧
    (∀ recs : List PubRec,
      buildStage docs p recs =
        (recs.filter
          (fun r =>
            ! lineHasIgnoreComment docs p (r.base.line - 1) (jsOrS r.base.code "EC999"))).map
          buildDiag) := by
  refine ⟨?_, ?_, fun recs => buildStage_eq_filter docs p recs⟩
  · intro h
    simp [lineHasIgnoreComment, h]
  · intro doc h
    simp only [lineHasIgnoreComment, h]
    exact ignoreScan_true_iff doc code _ _ (by omega)

/-- C6 witness: a marker line naming EC001 suppresses the EC001 finding on
that line. -/
theorem c6_witness :
    lineHasIgnoreComment (fun _ => some docMarker1) "a.py" 0 "EC001" = true :=
  ((c6_suppression_semantics (fun _ => some docMarker1) "a.py" 0 "EC001").2.1 docMarker1
      rfl).mpr
    ⟨by decide, 0, by decide, by decide, "# edgecheck: ignore EC001", by decide, by decide⟩

/-- C7, counterexample: two EC001 diagnostics on line 7 with start columns
0 and 5 produce two edits that target the exact same insertion point
(7, 0) and BOTH are applied — dedup is not by insertion point. -/
theorem c7_counterexample :
    d7a.line = d7b.line ∧ d7a.startChar ≠ d7b.startChar ∧
    fixAllGuardEdits doc7 "denominator cannot be zero" [d7a, d7b] =
      some
        [{ line := 7, col := 0, text := ec001GuardText "    " "denominator cannot be zero" },
         { line := 7, col := 0, text := ec001GuardText "    " "denominator cannot be zero" }] := by
  decide

/-- C7 (amended): the fix-all loop deduplicates by the key
`(diagnostic start line, diagnostic start character)` — not by the actual
insertion point, which is always column 0 of the line: a diagnostic whose
key was already seen changes nothing, a fresh EC001 key appends the zero
guard at `(line, 0)` and records the key; two findings at the identical
point (line 7, column 0) therefore insert the guard exactly once. -/
theorem c7_fixall_dedup_by_key :
    (∀ (doc : List String) (zeroMsg : String) (d : Diagnostic) (rest : List Diagnostic)
        (edits : List TextEdit) (seen : List String) (text : String),
        lineAt doc d.line = some text → fixKey d ∈ seen →
          fixAllLoop doc zeroMsg (d :: rest) edits seen = fixAllLoop doc zeroMsg rest edits seen) ∧
    (∀ (doc : List String) (zeroMsg : String) (d : Diagnostic) (rest : List Diagnostic)
        (edits : List TextEdit) (seen : List String) (text : String),
        lineAt doc d.line = some text → fixKey d ∉ seen → strIncludes d.code "EC001" = true →
          fixAllLoop doc zeroMsg (d :: rest) edits seen =
            fixAllLoop doc zeroMsg rest
              (edits ++ [{ line := d.line, col := 0, text := ec001GuardText (leadingWs text) zeroMsg }])
              (seen ++ [fixKey d])) ∧
    fixAllGuardEdits doc7 "denominator cannot be zero" [d7a, d7aDup] =
      some [{ line := 7, col := 0, text := ec001GuardText "    " "denominator cannot be zero" }] := by
  refine ⟨?_, ?_, by decide⟩
  · intro doc zeroMsg d rest edits seen text hline hmem
    rw [fixAllLoop, hline]
    dsimp only
    by_cases h1 : strIncludes d.code "EC001" = true
    · rw [if_pos h1, if_pos hmem]
    · rw [if_neg h1]
      by_cases h2 : strIncludes d.code "EC002" = true
      · rw [if_pos h2, if_pos hmem]
      · rw [if_neg h2]
  · intro doc zeroMsg d rest edits seen text hline hmem h1
    rw [fixAllLoop, hline]
    dsimp only
    rw [if_pos h1, if_neg hmem]

/-- C7 witness: a diagnostic whose `(line, startChar)` key is already in
the seen set leaves the loop state unchanged at concrete inputs. -/
theorem c7_witness :
    (lineAt doc7 d7a.line = some "    y = a / b") ∧ (fixKey d7a ∈ ["7:0"]) ∧
    fixAllLoop doc7 "z" [d7a] [] ["7:0"] = fixAllLoop doc7 "z" [] [] ["7:0"] :=
  ⟨by decide, by decide,
   c7_fixall_dedup_by_key.1 doc7 "z" d7a [] [] ["7:0"] "    y = a / b" (by decide) (by decide)⟩

/-- C8, counterexample: for the EC001 diagnostic at line 5, the provider
variant synthesizes the zero guard at the finding's own line 5 (indentation
copied from line 5), not at the line immediately after (6). -/
theorem c8_counterexample :
    provideActionsForDiag { zeroGuardMessage := none } doc8 (some "divide") d8 =
      some
        [{ title := "EdgeCheck: add zero-denominator guard in divide"
           edits := [{ line := 5, col := 0,
                       text := ec001GuardText "    " "denominator cannot be zero" }] },
         { title := "EdgeCheck: suppress EC001 in divide"
           edits := [{ line := 5, col := 0, text := "    # edgecheck: ignore EC001\n" }] }] ∧
    d8.line = 5 ∧ ((5 : Int) ≠ 5 + 1) := by
  decide

/-- C8 (amended): in `quickFixesForFinding` a division-by-zero finding
(code exactly EC001 or a ZeroDivisionError message) with a known function,
non-info severity and no index-category match yields exactly one guard fix,
whose application inserts at the line immediately after the finding's line
with indentation copied from that line, testing `b == 0` and raising a
ValueError; in the `EdgeCheckQuickFixProvider` variant the zero guard is
instead inserted at the finding's own line. -/
theorem c8_zero_guard_fix (f : Finding)
    (hsev : lowerStr (jsOrS f.severity "") ≠ "info")
    (hdz : f.code = some "EC001" ∨ startsWithStr (jsOrS f.message "") "ZeroDivisionError" = true)
    (hfn : jsOrS f.function "" ≠ "")
    (hnotIdx : ¬ (f.code = some "EC002" ∨ startsWithStr (jsOrS f.message "") "IndexError" = true)) :
    (quickFixesForFinding f = [zeroGuardQF f] ∧
      ∀ (doc : List String) (text : String),
        lineAt doc (max 0 (jsOr f.line 1 - 1) + 1) = some text →
          (zeroGuardQF f).applyFix doc =
            some { line := max 0 (jsOr f.line 1 - 1) + 1, col := 0
                   text := leadingWs text ++ "if b == 0:\n" ++ leadingWs text ++
                     "    raise ValueError(\"denominator cannot be zero\")\n" }) ∧
    (∀ (qc : QFCfg) (doc : List String) (mf : Option String) (d : Diagnostic) (text : String),
        strIncludes d.code "EC001" = true → lineAt doc d.line = some text →
          (provideActionsForDiag qc doc mf d).map List.head? =
            some (some
              { title := "EdgeCheck: add zero-denominator guard in " ++ jsOrS mf "(function)"
                edits := [{ line := d.line, col := 0
                            text := ec001GuardText (leadingWs text)
                              (jsOrS qc.zeroGuardMessage "denominator cannot be zero") }] })) := by
  refine ⟨⟨?_, ?_⟩, ?_⟩
  · rw [quickFixesForFinding, if_neg hsev, if_pos ⟨hdz, hfn⟩,
      if_neg (fun hh => hnotIdx hh.1)]
    rfl
  · intro doc text h
    simp only [zeroGuardQF]
    rw [h]
    rfl
  · intro qc doc mf d text h1 h2
    simp only [provideActionsForDiag]
    rw [h2]
    simp only [Option.map_some']
    rw [if_pos h1]
    rfl

/-- C8 witness: the concrete ZeroDivisionError finding in `divide` yields
exactly the zero-guard fix. -/
theorem c8_witness :
    (lowerStr (jsOrS f8.severity "") ≠ "info") ∧ (jsOrS f8.function "" ≠ "") ∧
    quickFixesForFinding f8 = [zeroGuardQF f8] :=
  ⟨by decide, by decide,
   (c8_zero_guard_fix f8 (by decide) (Or.inl rfl) (by decide) (by decide)).1.1⟩
